import Mathlib

/-!
Verification of the phone-number normalization core of the sales-app
repository.

The repository has two Python implementations of the normalizer:

* `format_korean_phone` (src/s18.py, lines 107-149), together with its
  helper `strip_digits` (lines 103-104) and the prefix tables
  `MOBILE_PREFIXES`, `AREA3`, `SERVICE_3` (lines 69-71);
* `format_phone` (src/sales-app.py, lines 133-150), a simpler variant.

Strings are modelled as `List Char`; Python digit characters are modelled
as ASCII decimal digits (`Char.isDigit`).  Python's slice `digits[a:b]`
is `(digits.drop a).take (b - a)`, `digits[:n]` is `digits.take n`,
`digits[n:]` is `digits.drop n`; Python slices clamp out-of-range bounds
exactly as `take`/`drop` do.  `digits.startswith("02")` is equivalent to
`digits[:2] == "02"` and is modelled as `digits.take 2 = ['0', '2']`.
-/

namespace SalesApp

/-- The set literal `MOBILE_PREFIXES = {"010","011","016","017","018","019"}`
from src/s18.py line 69, as a list of character lists. -/
def MOBILE_PREFIXES : List (List Char) :=
  [['0', '1', '0'], ['0', '1', '1'], ['0', '1', '6'],
   ['0', '1', '7'], ['0', '1', '8'], ['0', '1', '9']]

/-- The set literal `AREA3` from src/s18.py line 70. -/
def AREA3 : List (List Char) :=
  [['0', '3', '1'], ['0', '3', '2'], ['0', '3', '3'],
   ['0', '4', '1'], ['0', '4', '2'], ['0', '4', '3'], ['0', '4', '4'],
   ['0', '5', '1'], ['0', '5', '2'], ['0', '5', '3'], ['0', '5', '4'], ['0', '5', '5'],
   ['0', '6', '1'], ['0', '6', '2'], ['0', '6', '3'], ['0', '6', '4']]

/-- The set literal `SERVICE_3 = {"070","050","080"}` from src/s18.py line 71. -/
def SERVICE_3 : List (List Char) :=
  [['0', '7', '0'], ['0', '5', '0'], ['0', '8', '0']]

/-- `strip_digits` (src/s18.py lines 103-104): `re.sub(r"\D", "", s or "")`,
i.e. keep exactly the digit characters of the input. -/
def strip_digits (s : List Char) : List Char :=
  s.filter Char.isDigit

/-- The body of `format_korean_phone` (src/s18.py lines 107-149) after the
local variable `digits = strip_digits(raw)` has been computed, as a function
of `digits`.  Every branch is a literal transcription of the corresponding
Python line; the inline set `{"15", "16", "18"}` on line 111 appears as the
explicit list below. -/
def fmtDigits (digits : List Char) : List Char :=
  if digits = [] then []
  else if digits.length = 8 ∧ digits.take 2 ∈ [['1', '5'], ['1', '6'], ['1', '8']] then
    digits.take 4 ++ ['-'] ++ (digits.drop 4).take 4
  else if digits.take 2 = ['0', '2'] then
    if digits.length ≤ 2 then digits
    else if 3 ≤ digits.length ∧ digits.length ≤ 5 then
      ['0', '2', '-'] ++ digits.drop 2
    else if 6 ≤ digits.length ∧ digits.length ≤ 9 then
      ['0', '2', '-'] ++ (digits.drop 2).take 3 ++ ['-'] ++ (digits.drop 5).take 4
    else
      ['0', '2', '-'] ++ (digits.drop 2).take 4 ++ ['-'] ++ (digits.drop 6).take 4
  else if digits.take 3 ∈ SERVICE_3 then
    if digits.length ≤ 3 then digits
    else if 4 ≤ digits.length ∧ digits.length ≤ 7 then
      digits.take 3 ++ ['-'] ++ digits.drop 3
    else
      digits.take 3 ++ ['-'] ++ (digits.drop 3).take 4 ++ ['-'] ++ (digits.drop 7).take 4
  else if digits.take 3 ∈ MOBILE_PREFIXES then
    if digits.length ≤ 3 then digits
    else if 4 ≤ digits.length ∧ digits.length ≤ 7 then
      digits.take 3 ++ ['-'] ++ digits.drop 3
    else if digits.length = 10 then
      digits.take 3 ++ ['-'] ++ (digits.drop 3).take 3 ++ ['-'] ++ (digits.drop 6).take 4
    else
      digits.take 3 ++ ['-'] ++ (digits.drop 3).take 4 ++ ['-'] ++ (digits.drop 7).take 4
  else if digits.take 3 ∈ AREA3 then
    if digits.length ≤ 3 then digits
    else if 4 ≤ digits.length ∧ digits.length ≤ 6 then
      digits.take 3 ++ ['-'] ++ digits.drop 3
    else
      digits.take 3 ++ ['-'] ++ (digits.drop 3).take 3 ++ ['-'] ++ (digits.drop 6).take 4
  else if digits.length = 8 then
    digits.take 4 ++ ['-'] ++ (digits.drop 4).take 4
  else if digits.length = 10 then
    digits.take 3 ++ ['-'] ++ (digits.drop 3).take 3 ++ ['-'] ++ (digits.drop 6).take 4
  else if 11 ≤ digits.length then
    digits.take 3 ++ ['-'] ++ (digits.drop 3).take 4 ++ ['-'] ++ (digits.drop 7).take 4
  else if digits.length ≤ 3 then digits
  else digits.take 3 ++ ['-'] ++ digits.drop 3

/-- `format_korean_phone` (src/s18.py lines 107-149): strip the non-digits,
then format by the branch structure captured in `fmtDigits`. -/
def format_korean_phone (raw : List Char) : List Char :=
  fmtDigits (strip_digits raw)

/-- `format_phone` (src/sales-app.py lines 133-150).  The Python function's
`02` branch returns only for digit counts 10 and 9 and otherwise falls
through to the length-only branches, which is rendered here by conjoining
the `startswith` test with each of those two length tests. -/
def format_phone (s : List Char) : List Char :=
  let digits := s.filter Char.isDigit
  if digits.take 2 = ['0', '2'] ∧ digits.length = 10 then
    digits.take 2 ++ ['-'] ++ (digits.drop 2).take 4 ++ ['-'] ++ digits.drop 6
  else if digits.take 2 = ['0', '2'] ∧ digits.length = 9 then
    digits.take 2 ++ ['-'] ++ (digits.drop 2).take 3 ++ ['-'] ++ digits.drop 5
  else if digits.length = 11 then
    digits.take 3 ++ ['-'] ++ (digits.drop 3).take 4 ++ ['-'] ++ digits.drop 7
  else if digits.length = 10 then
    digits.take 3 ++ ['-'] ++ (digits.drop 3).take 3 ++ ['-'] ++ digits.drop 6
  else if digits.length = 8 then
    digits.take 4 ++ ['-'] ++ digits.drop 4
  else if 7 < digits.length then
    digits.take 3 ++ ['-'] ++ (digits.drop 3).take 4 ++ ['-'] ++ digits.drop 7
  else if 3 < digits.length then
    digits.take 3 ++ ['-'] ++ digits.drop 3
  else digits

/-! Basic facts about `strip_digits` and list slicing. -/

lemma strip_digits_append (a b : List Char) :
    strip_digits (a ++ b) = strip_digits a ++ strip_digits b := by
  simp only [strip_digits, List.filter_append]

lemma mem_strip_digits_isDigit {s : List Char} {c : Char} (h : c ∈ strip_digits s) :
    c.isDigit = true :=
  (List.mem_filter.mp h).2

lemma strip_digits_eq_self {l : List Char} (h : ∀ c ∈ l, c.isDigit = true) :
    strip_digits l = l :=
  List.filter_eq_self.mpr h

lemma take_two_take_three (d : List Char) : (d.take 3).take 2 = d.take 2 := by
  rw [List.take_take]; norm_num

/-- A list whose first three characters form a 3-character member of `S`
has at least three characters. -/
lemma three_le_length_of_take_mem {d : List Char} {S : List (List Char)}
    (h : d.take 3 ∈ S) (hS : ∀ l ∈ S, l.length = 3) : 3 ≤ d.length := by
  have h3 := hS _ h
  simp only [List.length_take] at h3
  omega

lemma take_prefix_self (n : ℕ) {α : Type} (l : List α) : l.take n <+: l :=
  ⟨l.drop n, List.take_append_drop n l⟩

/-! Branch-selection lemmas for `fmtDigits`: each one discharges the guards
that come before a given branch of `format_korean_phone` and exposes that
branch's own inner case split. -/

lemma fmtDigits_short {d : List Char} (h8 : d.length = 8)
    (hp : d.take 2 ∈ [['1', '5'], ['1', '6'], ['1', '8']]) :
    fmtDigits d = d.take 4 ++ ['-'] ++ (d.drop 4).take 4 := by
  have hne : d ≠ [] := by intro hh; subst hh; simp at h8
  simp only [fmtDigits]
  rw [if_neg hne, if_pos ⟨h8, hp⟩]

lemma fmtDigits_seoul {d : List Char} (h02 : d.take 2 = ['0', '2']) :
    fmtDigits d =
      if d.length ≤ 2 then d
      else if 3 ≤ d.length ∧ d.length ≤ 5 then ['0', '2', '-'] ++ d.drop 2
      else if 6 ≤ d.length ∧ d.length ≤ 9 then
        ['0', '2', '-'] ++ (d.drop 2).take 3 ++ ['-'] ++ (d.drop 5).take 4
      else ['0', '2', '-'] ++ (d.drop 2).take 4 ++ ['-'] ++ (d.drop 6).take 4 := by
  have hne : d ≠ [] := by intro hh; subst hh; simp at h02
  have hshort : d.take 2 ∉ ([['1', '5'], ['1', '6'], ['1', '8']] : List (List Char)) := by
    rw [h02]; decide
  simp only [fmtDigits]
  rw [if_neg hne, if_neg (fun hh => hshort hh.2), if_pos h02]

lemma fmtDigits_service {d : List Char} (h : d.take 3 ∈ SERVICE_3) :
    fmtDigits d =
      if d.length ≤ 3 then d
      else if 4 ≤ d.length ∧ d.length ≤ 7 then d.take 3 ++ ['-'] ++ d.drop 3
      else d.take 3 ++ ['-'] ++ (d.drop 3).take 4 ++ ['-'] ++ (d.drop 7).take 4 := by
  have hlen : 3 ≤ d.length := three_le_length_of_take_mem h (by decide)
  have hne : d ≠ [] := by intro hh; subst hh; simp at hlen
  have h2 : d.take 2 ∈ ([['0', '7'], ['0', '5'], ['0', '8']] : List (List Char)) := by
    have hall : ∀ l ∈ SERVICE_3,
        l.take 2 ∈ ([['0', '7'], ['0', '5'], ['0', '8']] : List (List Char)) := by decide
    have := hall _ h
    rwa [take_two_take_three] at this
  have hshort : d.take 2 ∉ ([['1', '5'], ['1', '6'], ['1', '8']] : List (List Char)) := by
    have hall : ∀ x ∈ ([['0', '7'], ['0', '5'], ['0', '8']] : List (List Char)),
        x ∉ ([['1', '5'], ['1', '6'], ['1', '8']] : List (List Char)) := by decide
    exact hall _ h2
  have h02 : ¬ d.take 2 = ['0', '2'] := by
    have hall : ∀ x ∈ ([['0', '7'], ['0', '5'], ['0', '8']] : List (List Char)),
        ¬ x = ['0', '2'] := by decide
    exact hall _ h2
  simp only [fmtDigits]
  rw [if_neg hne, if_neg (fun hh => hshort hh.2), if_neg h02, if_pos h]

lemma fmtDigits_mobile {d : List Char} (h : d.take 3 ∈ MOBILE_PREFIXES) :
    fmtDigits d =
      if d.length ≤ 3 then d
      else if 4 ≤ d.length ∧ d.length ≤ 7 then d.take 3 ++ ['-'] ++ d.drop 3
      else if d.length = 10 then
        d.take 3 ++ ['-'] ++ (d.drop 3).take 3 ++ ['-'] ++ (d.drop 6).take 4
      else d.take 3 ++ ['-'] ++ (d.drop 3).take 4 ++ ['-'] ++ (d.drop 7).take 4 := by
  have hlen : 3 ≤ d.length := three_le_length_of_take_mem h (by decide)
  have hne : d ≠ [] := by intro hh; subst hh; simp at hlen
  have h2 : d.take 2 = ['0', '1'] := by
    have hall : ∀ l ∈ MOBILE_PREFIXES, l.take 2 = ['0', '1'] := by decide
    have := hall _ h
    rwa [take_two_take_three] at this
  have hshort : d.take 2 ∉ ([['1', '5'], ['1', '6'], ['1', '8']] : List (List Char)) := by
    rw [h2]; decide
  have h02 : ¬ d.take 2 = ['0', '2'] := by rw [h2]; decide
  have hsvc : d.take 3 ∉ SERVICE_3 := by
    have hall : ∀ l ∈ MOBILE_PREFIXES, l ∉ SERVICE_3 := by decide
    exact hall _ h
  simp only [fmtDigits]
  rw [if_neg hne, if_neg (fun hh => hshort hh.2), if_neg h02, if_neg hsvc, if_pos h]

lemma fmtDigits_area {d : List Char} (h : d.take 3 ∈ AREA3) :
    fmtDigits d =
      if d.length ≤ 3 then d
      else if 4 ≤ d.length ∧ d.length ≤ 6 then d.take 3 ++ ['-'] ++ d.drop 3
      else d.take 3 ++ ['-'] ++ (d.drop 3).take 3 ++ ['-'] ++ (d.drop 6).take 4 := by
  have hlen : 3 ≤ d.length := three_le_length_of_take_mem h (by decide)
  have hne : d ≠ [] := by intro hh; subst hh; simp at hlen
  have h2 : d.take 2 ∈
      ([['0', '3'], ['0', '4'], ['0', '5'], ['0', '6']] : List (List Char)) := by
    have hall : ∀ l ∈ AREA3, l.take 2 ∈
        ([['0', '3'], ['0', '4'], ['0', '5'], ['0', '6']] : List (List Char)) := by decide
    have := hall _ h
    rwa [take_two_take_three] at this
  have hshort : d.take 2 ∉ ([['1', '5'], ['1', '6'], ['1', '8']] : List (List Char)) := by
    have hall : ∀ x ∈ ([['0', '3'], ['0', '4'], ['0', '5'], ['0', '6']] : List (List Char)),
        x ∉ ([['1', '5'], ['1', '6'], ['1', '8']] : List (List Char)) := by decide
    exact hall _ h2
  have h02 : ¬ d.take 2 = ['0', '2'] := by
    have hall : ∀ x ∈ ([['0', '3'], ['0', '4'], ['0', '5'], ['0', '6']] : List (List Char)),
        ¬ x = ['0', '2'] := by decide
    exact hall _ h2
  have hsvc : d.take 3 ∉ SERVICE_3 := by
    have hall : ∀ l ∈ AREA3, l ∉ SERVICE_3 := by decide
    exact hall _ h
  have hmob : d.take 3 ∉ MOBILE_PREFIXES := by
    have hall : ∀ l ∈ AREA3, l ∉ MOBILE_PREFIXES := by decide
    exact hall _ h
  simp only [fmtDigits]
  rw [if_neg hne, if_neg (fun hh => hshort hh.2), if_neg h02, if_neg hsvc,
    if_neg hmob, if_pos h]

lemma fmtDigits_fallback {d : List Char} (hne : d ≠ [])
    (hshort : ¬ (d.length = 8 ∧ d.take 2 ∈ [['1', '5'], ['1', '6'], ['1', '8']]))
    (h02 : ¬ d.take 2 = ['0', '2'])
    (hsvc : d.take 3 ∉ SERVICE_3)
    (hmob : d.take 3 ∉ MOBILE_PREFIXES)
    (harea : d.take 3 ∉ AREA3) :
    fmtDigits d =
      if d.length = 8 then d.take 4 ++ ['-'] ++ (d.drop 4).take 4
      else if d.length = 10 then
        d.take 3 ++ ['-'] ++ (d.drop 3).take 3 ++ ['-'] ++ (d.drop 6).take 4
      else if 11 ≤ d.length then
        d.take 3 ++ ['-'] ++ (d.drop 3).take 4 ++ ['-'] ++ (d.drop 7).take 4
      else if d.length ≤ 3 then d
      else d.take 3 ++ ['-'] ++ d.drop 3 := by
  simp only [fmtDigits]
  rw [if_neg hne, if_neg hshort, if_neg h02, if_neg hsvc, if_neg hmob, if_neg harea]

/-! Output-shape machinery: every `fmtDigits` result is an intercalation of
at most three non-empty groups whose concatenation is a prefix of the digit
string, with at most 11 digits and total length at most 13. -/

lemma take_pos_ne_nil {d : List Char} {n : ℕ} (hn : 0 < n) (hd : d ≠ []) :
    d.take n ≠ [] := by
  apply List.ne_nil_of_length_pos
  have h1 : 0 < d.length := List.length_pos.mpr hd
  simp only [List.length_take]
  omega

lemma drop_take_ne_nil {d : List Char} {a b : ℕ} (hb : 0 < b) (ha : a < d.length) :
    (d.drop a).take b ≠ [] := by
  apply List.ne_nil_of_length_pos
  simp only [List.length_take, List.length_drop]
  omega

lemma drop_ne_nil_of_lt {d : List Char} {a : ℕ} (ha : a < d.length) : d.drop a ≠ [] := by
  apply List.ne_nil_of_length_pos
  simp only [List.length_drop]
  omega

lemma take_split2_pre (d : List Char) (a b : ℕ) :
    d.take a ++ (d.drop a).take b <+: d := by
  rw [← List.take_add]
  exact take_prefix_self _ d

lemma take_split3_pre (d : List Char) (a b c : ℕ) :
    d.take a ++ (d.drop a).take b ++ (d.drop (a + b)).take c <+: d := by
  rw [← List.take_add, ← List.take_add]
  exact take_prefix_self _ d

lemma shape_one {d x : List Char} (hx : x ≠ []) (hpre : x <+: d)
    (hlen : x.length ≤ 11) :
    ∃ gs : List (List Char),
      x = List.intercalate ['-'] gs ∧ gs.length ≤ 3 ∧
      (∀ g ∈ gs, g ≠ []) ∧ gs.flatten <+: d ∧ gs.flatten.length ≤ 11 ∧
      x.length ≤ 13 := by
  refine ⟨[x], by simp [List.intercalate], by simp, ?_, by simpa using hpre,
    by simpa using hlen, by omega⟩
  intro g hg
  simp only [List.mem_singleton] at hg
  subst hg
  exact hx

lemma shape_two {d x y : List Char} (hx : x ≠ []) (hy : y ≠ [])
    (hpre : x ++ y <+: d) (hlen : x.length + y.length ≤ 11) :
    ∃ gs : List (List Char),
      x ++ ['-'] ++ y = List.intercalate ['-'] gs ∧ gs.length ≤ 3 ∧
      (∀ g ∈ gs, g ≠ []) ∧ gs.flatten <+: d ∧ gs.flatten.length ≤ 11 ∧
      (x ++ ['-'] ++ y).length ≤ 13 := by
  refine ⟨[x, y], by simp [List.intercalate], by simp, ?_, by simpa using hpre,
    by simpa using hlen, ?_⟩
  · intro g hg
    simp only [List.mem_cons, List.mem_singleton, List.not_mem_nil, or_false] at hg
    rcases hg with rfl | rfl
    · exact hx
    · exact hy
  · simp only [List.length_append, List.length_cons, List.length_nil]
    omega

lemma shape_three {d x y z : List Char} (hx : x ≠ []) (hy : y ≠ []) (hz : z ≠ [])
    (hpre : x ++ y ++ z <+: d) (hlen : x.length + y.length + z.length ≤ 11) :
    ∃ gs : List (List Char),
      x ++ ['-'] ++ y ++ ['-'] ++ z = List.intercalate ['-'] gs ∧ gs.length ≤ 3 ∧
      (∀ g ∈ gs, g ≠ []) ∧ gs.flatten <+: d ∧ gs.flatten.length ≤ 11 ∧
      (x ++ ['-'] ++ y ++ ['-'] ++ z).length ≤ 13 := by
  refine ⟨[x, y, z], by simp [List.intercalate, List.intersperse_cons_cons], by simp,
    ?_, by simpa using hpre, by simp only [List.flatten_cons, List.flatten_nil,
      List.append_nil, List.length_append]; omega, ?_⟩
  · intro g hg
    simp only [List.mem_cons, List.mem_singleton, List.not_mem_nil, or_false] at hg
    rcases hg with rfl | rfl | rfl
    · exact hx
    · exact hy
    · exact hz
  · simp only [List.length_append, List.length_cons, List.length_nil]
    omega

/-- Every output of the formatter body is an intercalation of at most three
non-empty groups; the groups concatenate to a prefix of the digit string of
at most 11 characters, and the whole output has at most 13 characters. -/
theorem fmtDigits_shape (d : List Char) :
    ∃ gs : List (List Char),
      fmtDigits d = List.intercalate ['-'] gs ∧ gs.length ≤ 3 ∧
      (∀ g ∈ gs, g ≠ []) ∧ gs.flatten <+: d ∧ gs.flatten.length ≤ 11 ∧
      (fmtDigits d).length ≤ 13 := by
  by_cases hnil : d = []
  · subst hnil
    exact ⟨[], by decide, by decide, by decide, List.nil_prefix, by decide, by decide⟩
  have hd : d ≠ [] := hnil
  have hdlen : 0 < d.length := List.length_pos.mpr hd
  by_cases h1 : d.length = 8 ∧ d.take 2 ∈ [['1', '5'], ['1', '6'], ['1', '8']]
  · rw [fmtDigits_short h1.1 h1.2]
    exact shape_two (take_pos_ne_nil (by norm_num) hd)
      (drop_take_ne_nil (by norm_num) (by have := h1.1; omega))
      (take_split2_pre d 4 4)
      (by simp only [List.length_take, List.length_drop]; omega)
  by_cases h2 : d.take 2 = ['0', '2']
  · rw [fmtDigits_seoul h2]
    have hn2 : 2 ≤ d.length := by
      have := congrArg List.length h2
      simp only [List.length_take, List.length_cons, List.length_nil] at this
      omega
    have h02d : (['0', '2'] : List Char) ++ d.drop 2 = d := by
      rw [← h2]; exact List.take_append_drop 2 d
    split_ifs with c1 c2 c3
    · exact shape_one hd (List.prefix_refl d) (by omega)
    · refine @shape_two d ['0', '2'] (d.drop 2) (by decide)
        (drop_ne_nil_of_lt (by omega)) ?_ ?_
      · rw [h02d]
      · simp only [List.length_cons, List.length_nil, List.length_drop]
        omega
    · refine @shape_three d ['0', '2'] ((d.drop 2).take 3) ((d.drop 5).take 4)
        (by decide) (drop_take_ne_nil (by norm_num) (by omega))
        (drop_take_ne_nil (by norm_num) (by omega)) ?_ ?_
      · rw [← h2]
        exact take_split3_pre d 2 3 4
      · simp only [List.length_cons, List.length_nil, List.length_take,
          List.length_drop]
        omega
    · refine @shape_three d ['0', '2'] ((d.drop 2).take 4) ((d.drop 6).take 4)
        (by decide) (drop_take_ne_nil (by norm_num) (by omega))
        (drop_take_ne_nil (by norm_num) (by omega)) ?_ ?_
      · rw [← h2]
        exact take_split3_pre d 2 4 4
      · simp only [List.length_cons, List.length_nil, List.length_take,
          List.length_drop]
        omega
  by_cases h3 : d.take 3 ∈ SERVICE_3
  · rw [fmtDigits_service h3]
    have hn3 : 3 ≤ d.length := three_le_length_of_take_mem h3 (by decide)
    split_ifs with c1 c2
    · exact shape_one hd (List.prefix_refl d) (by omega)
    · refine shape_two (take_pos_ne_nil (by norm_num) hd)
        (drop_ne_nil_of_lt (by omega)) ?_ ?_
      · rw [List.take_append_drop]
      · simp only [List.length_take, List.length_drop]
        omega
    · exact shape_three (take_pos_ne_nil (by norm_num) hd)
        (drop_take_ne_nil (by norm_num) (by omega))
        (drop_take_ne_nil (by norm_num) (by omega))
        (take_split3_pre d 3 4 4)
        (by simp only [List.length_take, List.length_drop]; omega)
  by_cases h4 : d.take 3 ∈ MOBILE_PREFIXES
  · rw [fmtDigits_mobile h4]
    have hn3 : 3 ≤ d.length := three_le_length_of_take_mem h4 (by decide)
    split_ifs with c1 c2 c3
    · exact shape_one hd (List.prefix_refl d) (by omega)
    · refine shape_two (take_pos_ne_nil (by norm_num) hd)
        (drop_ne_nil_of_lt (by omega)) ?_ ?_
      · rw [List.take_append_drop]
      · simp only [List.length_take, List.length_drop]
        omega
    · exact shape_three (take_pos_ne_nil (by norm_num) hd)
        (drop_take_ne_nil (by norm_num) (by omega))
        (drop_take_ne_nil (by norm_num) (by omega))
        (take_split3_pre d 3 3 4)
        (by simp only [List.length_take, List.length_drop]; omega)
    · exact shape_three (take_pos_ne_nil (by norm_num) hd)
        (drop_take_ne_nil (by norm_num) (by omega))
        (drop_take_ne_nil (by norm_num) (by omega))
        (take_split3_pre d 3 4 4)
        (by simp only [List.length_take, List.length_drop]; omega)
  by_cases h5 : d.take 3 ∈ AREA3
  · rw [fmtDigits_area h5]
    have hn3 : 3 ≤ d.length := three_le_length_of_take_mem h5 (by decide)
    split_ifs with c1 c2
    · exact shape_one hd (List.prefix_refl d) (by omega)
    · refine shape_two (take_pos_ne_nil (by norm_num) hd)
        (drop_ne_nil_of_lt (by omega)) ?_ ?_
      · rw [List.take_append_drop]
      · simp only [List.length_take, List.length_drop]
        omega
    · exact shape_three (take_pos_ne_nil (by norm_num) hd)
        (drop_take_ne_nil (by norm_num) (by omega))
        (drop_take_ne_nil (by norm_num) (by omega))
        (take_split3_pre d 3 3 4)
        (by simp only [List.length_take, List.length_drop]; omega)
  rw [fmtDigits_fallback hd h1 h2 h3 h4 h5]
  split_ifs with c1 c2 c3 c4
  · exact shape_two (take_pos_ne_nil (by norm_num) hd)
      (drop_take_ne_nil (by norm_num) (by omega))
      (take_split2_pre d 4 4)
      (by simp only [List.length_take, List.length_drop]; omega)
  · exact shape_three (take_pos_ne_nil (by norm_num) hd)
      (drop_take_ne_nil (by norm_num) (by omega))
      (drop_take_ne_nil (by norm_num) (by omega))
      (take_split3_pre d 3 3 4)
      (by simp only [List.length_take, List.length_drop]; omega)
  · exact shape_three (take_pos_ne_nil (by norm_num) hd)
      (drop_take_ne_nil (by norm_num) (by omega))
      (drop_take_ne_nil (by norm_num) (by omega))
      (take_split3_pre d 3 4 4)
      (by simp only [List.length_take, List.length_drop]; omega)
  · exact shape_one hd (List.prefix_refl d) (by omega)
  · refine shape_two (take_pos_ne_nil (by norm_num) hd)
      (drop_ne_nil_of_lt (by omega)) ?_ ?_
    · rw [List.take_append_drop]
    · simp only [List.length_take, List.length_drop]
      omega

/-- C1: for every input whose digit projection D has its first three digits
in the mobile set, `format_korean_phone` returns D itself when |D| ≤ 3, the
3-rest split when 4 ≤ |D| ≤ 7, the 3-3-4 split when |D| = 10, and otherwise
the 3-4-4 split over positions 3:7 and 7:11, truncating past position 11. -/
theorem mobile_rule (raw : List Char)
    (h : (strip_digits raw).take 3 ∈ MOBILE_PREFIXES) :
    format_korean_phone raw =
      if (strip_digits raw).length ≤ 3 then strip_digits raw
      else if 4 ≤ (strip_digits raw).length ∧ (strip_digits raw).length ≤ 7 then
        (strip_digits raw).take 3 ++ ['-'] ++ (strip_digits raw).drop 3
      else if (strip_digits raw).length = 10 then
        (strip_digits raw).take 3 ++ ['-'] ++ ((strip_digits raw).drop 3).take 3
          ++ ['-'] ++ ((strip_digits raw).drop 6).take 4
      else
        (strip_digits raw).take 3 ++ ['-'] ++ ((strip_digits raw).drop 3).take 4
          ++ ['-'] ++ ((strip_digits raw).drop 7).take 4 :=
  fmtDigits_mobile h

/-- Witness for C1: the mobile rule applied to a concrete 11-digit and a
concrete 10-digit mobile number. -/
theorem mobile_rule_witness :
    format_korean_phone "01012345678".toList = "010-1234-5678".toList ∧
      format_korean_phone "0111234567".toList = "011-123-4567".toList :=
  ⟨(mobile_rule _ (by decide)).trans (by decide),
   (mobile_rule _ (by decide)).trans (by decide)⟩

/-- C2: for every input whose digit projection D starts with "02",
`format_korean_phone` returns D when |D| ≤ 2, `02-` + D[2:] when
3 ≤ |D| ≤ 5, `02-` + D[2:5] + `-` + D[5:9] when 6 ≤ |D| ≤ 9, and
`02-` + D[2:6] + `-` + D[6:10] when |D| ≥ 10 (digits past position 10
truncated). -/
theorem seoul_rule (raw : List Char)
    (h : (strip_digits raw).take 2 = ['0', '2']) :
    format_korean_phone raw =
      if (strip_digits raw).length ≤ 2 then strip_digits raw
      else if 3 ≤ (strip_digits raw).length ∧ (strip_digits raw).length ≤ 5 then
        ['0', '2', '-'] ++ (strip_digits raw).drop 2
      else if 6 ≤ (strip_digits raw).length ∧ (strip_digits raw).length ≤ 9 then
        ['0', '2', '-'] ++ ((strip_digits raw).drop 2).take 3
          ++ ['-'] ++ ((strip_digits raw).drop 5).take 4
      else
        ['0', '2', '-'] ++ ((strip_digits raw).drop 2).take 4
          ++ ['-'] ++ ((strip_digits raw).drop 6).take 4 :=
  fmtDigits_seoul h

/-- Witness for C2: the Seoul rule applied to a concrete 10-digit and a
concrete 9-digit Seoul number. -/
theorem seoul_rule_witness :
    format_korean_phone "0212345678".toList = "02-1234-5678".toList ∧
      format_korean_phone "021234567".toList = "02-123-4567".toList :=
  ⟨(seoul_rule _ (by decide)).trans (by decide),
   (seoul_rule _ (by decide)).trans (by decide)⟩

/-- C3: for every input whose digit projection D has exactly 8 digits whose
first two are in {"15","16","18"}, `format_korean_phone` returns the 4-4
split D[0:4] + `-` + D[4:8], regardless of every later prefix rule (the
short-code test is the first rule tried). -/
theorem short_code_rule (raw : List Char)
    (h8 : (strip_digits raw).length = 8)
    (hp : (strip_digits raw).take 2 ∈ [['1', '5'], ['1', '6'], ['1', '8']]) :
    format_korean_phone raw =
      (strip_digits raw).take 4 ++ ['-'] ++ ((strip_digits raw).drop 4).take 4 :=
  fmtDigits_short h8 hp

/-- Witness for C3: the short-code rule applied to "15881234". -/
theorem short_code_rule_witness :
    format_korean_phone "15881234".toList = "1588-1234".toList :=
  (short_code_rule _ (by decide) (by decide)).trans (by decide)

/-- C4: for every input whose non-empty digit projection D matches no
recognized prefix and is not the 8-digit short-code case,
`format_korean_phone` falls back on digit count alone: 8 → 4-4 split,
10 → 3-3-4 split, ≥ 11 → 3-4-4 split over positions 3:7 and 7:11,
≤ 3 → D unchanged, and any other length (4-7, 9) → D[0:3] + `-` + D[3:]. -/
theorem fallback_rule (raw : List Char)
    (hne : strip_digits raw ≠ [])
    (hshort : ¬ ((strip_digits raw).length = 8 ∧
      (strip_digits raw).take 2 ∈ [['1', '5'], ['1', '6'], ['1', '8']]))
    (h02 : ¬ (strip_digits raw).take 2 = ['0', '2'])
    (hsvc : (strip_digits raw).take 3 ∉ SERVICE_3)
    (hmob : (strip_digits raw).take 3 ∉ MOBILE_PREFIXES)
    (harea : (strip_digits raw).take 3 ∉ AREA3) :
    format_korean_phone raw =
      if (strip_digits raw).length = 8 then
        (strip_digits raw).take 4 ++ ['-'] ++ ((strip_digits raw).drop 4).take 4
      else if (strip_digits raw).length = 10 then
        (strip_digits raw).take 3 ++ ['-'] ++ ((strip_digits raw).drop 3).take 3
          ++ ['-'] ++ ((strip_digits raw).drop 6).take 4
      else if 11 ≤ (strip_digits raw).length then
        (strip_digits raw).take 3 ++ ['-'] ++ ((strip_digits raw).drop 3).take 4
          ++ ['-'] ++ ((strip_digits raw).drop 7).take 4
      else if (strip_digits raw).length ≤ 3 then strip_digits raw
      else (strip_digits raw).take 3 ++ ['-'] ++ (strip_digits raw).drop 3 :=
  fmtDigits_fallback hne hshort h02 hsvc hmob harea

/-- Witness for C4: the fallback rule applied to a 10-digit and a 9-digit
string with an unrecognized prefix. -/
theorem fallback_rule_witness :
    format_korean_phone "1234567890".toList = "123-456-7890".toList ∧
      format_korean_phone "123456789".toList = "123-456789".toList :=
  ⟨(fallback_rule _ (by decide) (by decide) (by decide) (by decide) (by decide)
      (by decide)).trans (by decide),
   (fallback_rule _ (by decide) (by decide) (by decide) (by decide) (by decide)
      (by decide)).trans (by decide)⟩

/-- C6: every input containing no digit character (the empty string
included) normalizes to the empty string. -/
theorem no_digit_input (raw : List Char) (h : ∀ c ∈ raw, ¬ c.isDigit = true) :
    format_korean_phone raw = [] := by
  have hnil : strip_digits raw = [] := by
    simp only [strip_digits, List.filter_eq_nil_iff]
    exact h
  show fmtDigits (strip_digits raw) = []
  rw [hnil]
  decide

/-- Witness for C6: a digit-free input. -/
theorem no_digit_input_witness :
    format_korean_phone "abc- ()".toList = [] :=
  no_digit_input _ (by decide)

/-- C7: `format_korean_phone` is total: for every input string it produces
an output string; no error condition exists in the embedding because every
operation the source uses (regex digit filtering, length tests, clamped
slicing, membership in finite sets) is total. -/
theorem normalize_total : ∀ raw : List Char, ∃ out : List Char,
    format_korean_phone raw = out :=
  fun raw => ⟨format_korean_phone raw, rfl⟩

/-- C8: the two implementations diverge: on "02123456" the richer
`format_korean_phone` yields "02-123-456" while the simpler `format_phone`
yields "0212-3456". -/
theorem implementations_diverge :
    ∃ s : List Char, format_korean_phone s ≠ format_phone s :=
  ⟨"02123456".toList, by decide⟩

lemma count_hyphen_zero {g : List Char} (h : ∀ c ∈ g, c.isDigit = true) :
    g.count '-' = 0 := by
  rw [List.count_eq_zero]
  intro hmem
  exact absurd (h _ hmem) (by decide)

lemma filter_digit_eq_self {g : List Char} (h : ∀ c ∈ g, c.isDigit = true) :
    g.filter Char.isDigit = g :=
  List.filter_eq_self.mpr h

/-- Concrete evaluation of character membership, hyphen count and digit
filtering over an intercalation of at most three digit-only groups. -/
lemma intercalate_facts {gs : List (List Char)} (hlen3 : gs.length ≤ 3)
    (hdig : ∀ g ∈ gs, ∀ c ∈ g, c.isDigit = true) :
    (∀ c ∈ List.intercalate ['-'] gs, c.isDigit = true ∨ c = '-') ∧
      (List.intercalate ['-'] gs).count '-' ≤ 2 ∧
      (List.intercalate ['-'] gs).filter Char.isDigit = gs.flatten := by
  have hfh : (['-'] : List Char).filter Char.isDigit = [] := rfl
  rcases gs with _ | ⟨a, _ | ⟨b, _ | ⟨g3, _ | ⟨g4, rest⟩⟩⟩⟩
  · refine ⟨?_, ?_, ?_⟩ <;> simp [List.intercalate]
  · have e1 : List.intercalate ['-'] [a] = a := by simp [List.intercalate]
    have ha := hdig a (by simp)
    rw [e1]
    refine ⟨fun x hx => Or.inl (ha x hx), ?_, ?_⟩
    · rw [count_hyphen_zero ha]; omega
    · rw [filter_digit_eq_self ha]; simp
  · have e2 : List.intercalate ['-'] [a, b] = a ++ ['-'] ++ b := by
      simp [List.intercalate]
    have ha := hdig a (by simp)
    have hb := hdig b (by simp)
    rw [e2]
    refine ⟨?_, ?_, ?_⟩
    · intro x hx
      simp only [List.mem_append, List.mem_singleton] at hx
      rcases hx with (hx | rfl) | hx
      · exact Or.inl (ha x hx)
      · exact Or.inr rfl
      · exact Or.inl (hb x hx)
    · rw [List.count_append, List.count_append, count_hyphen_zero ha,
        count_hyphen_zero hb]
      decide
    · rw [List.filter_append, List.filter_append, filter_digit_eq_self ha,
        filter_digit_eq_self hb, hfh]
      simp
  · have e3 : List.intercalate ['-'] [a, b, g3] = a ++ ['-'] ++ b ++ ['-'] ++ g3 := by
      simp [List.intercalate, List.intersperse_cons_cons]
    have ha := hdig a (by simp)
    have hb := hdig b (by simp)
    have hg3 := hdig g3 (by simp)
    rw [e3]
    refine ⟨?_, ?_, ?_⟩
    · intro x hx
      simp only [List.mem_append, List.mem_singleton] at hx
      rcases hx with (((hx | rfl) | hx) | rfl) | hx
      · exact Or.inl (ha x hx)
      · exact Or.inr rfl
      · exact Or.inl (hb x hx)
      · exact Or.inr rfl
      · exact Or.inl (hg3 x hx)
    · rw [List.count_append, List.count_append, List.count_append,
        List.count_append, count_hyphen_zero ha, count_hyphen_zero hb,
        count_hyphen_zero hg3]
      decide
    · rw [List.filter_append, List.filter_append, List.filter_append,
        List.filter_append, filter_digit_eq_self ha, filter_digit_eq_self hb,
        filter_digit_eq_self hg3, hfh]
      simp
  · exfalso
    simp only [List.length_cons] at hlen3
    omega

/-- C9: every output of `format_korean_phone` consists only of digit
characters and hyphens, has at most two hyphens, splits into non-empty
all-digit hyphen-separated groups (an empty output has no group), and its
digit content is a prefix of the digit projection of the input. -/
theorem output_shape (raw : List Char) :
    ∃ gs : List (List Char),
      format_korean_phone raw = List.intercalate ['-'] gs ∧
      (∀ c ∈ format_korean_phone raw, c.isDigit = true ∨ c = '-') ∧
      (format_korean_phone raw).count '-' ≤ 2 ∧
      (∀ g ∈ gs, g ≠ [] ∧ ∀ c ∈ g, c.isDigit = true) ∧
      gs.flatten <+: strip_digits raw := by
  obtain ⟨gs, heq, hlen3, hne, hpre, hf11, h13⟩ := fmtDigits_shape (strip_digits raw)
  have heq' : format_korean_phone raw = List.intercalate ['-'] gs := heq
  have hdig : ∀ g ∈ gs, ∀ c ∈ g, c.isDigit = true := by
    intro g hg c hc
    exact mem_strip_digits_isDigit (hpre.subset (List.mem_flatten.mpr ⟨g, hg, hc⟩))
  obtain ⟨hmem, hcount, -⟩ := intercalate_facts hlen3 hdig
  refine ⟨gs, heq', ?_, ?_, fun g hg => ⟨hne g hg, hdig g hg⟩, hpre⟩
  · intro c hc
    rw [heq'] at hc
    exact hmem c hc
  · rw [heq']
    exact hcount

/-- C10: every output of `format_korean_phone` contains at most 11 digit
characters and has total length at most 13. -/
theorem output_bounded (raw : List Char) :
    ((format_korean_phone raw).filter Char.isDigit).length ≤ 11 ∧
      (format_korean_phone raw).length ≤ 13 := by
  obtain ⟨gs, heq, hlen3, hne, hpre, hf11, h13⟩ := fmtDigits_shape (strip_digits raw)
  have heq' : format_korean_phone raw = List.intercalate ['-'] gs := heq
  have hdig : ∀ g ∈ gs, ∀ c ∈ g, c.isDigit = true := by
    intro g hg c hc
    exact mem_strip_digits_isDigit (hpre.subset (List.mem_flatten.mpr ⟨g, hg, hc⟩))
  obtain ⟨-, -, hfil⟩ := intercalate_facts hlen3 hdig
  refine ⟨?_, h13⟩
  rw [heq', hfil]
  exact hf11

/-! Idempotence machinery: stripping the output of `fmtDigits` recovers a
prefix of the digit string, and reformatting that prefix reproduces the
output. -/

lemma strip_digits_hyphen : strip_digits ['-'] = [] := rfl

lemma strip_digits_take_of {d : List Char} (hd : ∀ c ∈ d, c.isDigit = true)
    (n : ℕ) : strip_digits (d.take n) = d.take n :=
  strip_digits_eq_self (fun c hc => hd c (List.take_subset n d hc))

lemma strip_digits_drop_of {d : List Char} (hd : ∀ c ∈ d, c.isDigit = true)
    (n : ℕ) : strip_digits (d.drop n) = d.drop n :=
  strip_digits_eq_self (fun c hc => hd c (List.drop_subset n d hc))

lemma strip_digits_drop_take_of {d : List Char} (hd : ∀ c ∈ d, c.isDigit = true)
    (a b : ℕ) : strip_digits ((d.drop a).take b) = (d.drop a).take b :=
  strip_digits_eq_self
    (fun c hc => hd c (List.drop_subset a d (List.take_subset b _ hc)))

lemma strip_digits_split_all {d : List Char} (hd : ∀ c ∈ d, c.isDigit = true)
    (a : ℕ) : strip_digits (d.take a ++ ['-'] ++ d.drop a) = d := by
  rw [strip_digits_append, strip_digits_append, strip_digits_take_of hd,
    strip_digits_hyphen, strip_digits_drop_of hd, List.append_nil,
    List.take_append_drop]

lemma strip_digits_split2 {d : List Char} (hd : ∀ c ∈ d, c.isDigit = true)
    (a b : ℕ) :
    strip_digits (d.take a ++ ['-'] ++ (d.drop a).take b) = d.take (a + b) := by
  rw [strip_digits_append, strip_digits_append, strip_digits_take_of hd,
    strip_digits_hyphen, strip_digits_drop_take_of hd, List.append_nil,
    ← List.take_add]

lemma strip_digits_split3 {d : List Char} (hd : ∀ c ∈ d, c.isDigit = true)
    (a b k c : ℕ) (hk : k = a + b) :
    strip_digits
        (d.take a ++ ['-'] ++ (d.drop a).take b ++ ['-'] ++ (d.drop k).take c) =
      d.take (a + b + c) := by
  subst hk
  rw [strip_digits_append, strip_digits_append, strip_digits_append,
    strip_digits_append, strip_digits_take_of hd, strip_digits_hyphen,
    strip_digits_drop_take_of hd, strip_digits_drop_take_of hd,
    List.append_nil, List.append_nil, ← List.take_add, ← List.take_add]

lemma take_take_eq {d : List Char} {m K : ℕ} (h : m ≤ K) :
    (d.take K).take m = d.take m := by
  rw [List.take_take, Nat.min_eq_left h]

lemma take_trunc (d : List Char) (a b K : ℕ) (h : a + b ≤ K) :
    ((d.take K).drop a).take b = (d.drop a).take b := by
  rw [List.drop_take, List.take_take]
  congr 1
  omega

/-- Reformatting the digit content of a formatted digit string reproduces
the same output: the branch taken for the truncated digit string coincides
with the branch taken for the original. -/
lemma fmt_idem (d : List Char) (hd : ∀ c ∈ d, c.isDigit = true) :
    fmtDigits (strip_digits (fmtDigits d)) = fmtDigits d := by
  by_cases hnil : d = []
  · subst hnil; decide
  have hd0 : d ≠ [] := hnil
  have hsd : strip_digits d = d := strip_digits_eq_self hd
  by_cases h1 : d.length = 8 ∧ d.take 2 ∈ [['1', '5'], ['1', '6'], ['1', '8']]
  · have hE := fmtDigits_short h1.1 h1.2
    rw [hE, strip_digits_split2 hd 4 4,
      List.take_of_length_le (show d.length ≤ 4 + 4 by have := h1.1; omega), hE]
  by_cases h2 : d.take 2 = ['0', '2']
  · have hE := fmtDigits_seoul h2
    have hn2 : 2 ≤ d.length := by
      have := congrArg List.length h2
      simp only [List.length_take, List.length_cons, List.length_nil] at this
      omega
    have h02c : (['0', '2', '-'] : List Char) = d.take 2 ++ ['-'] := by
      rw [h2]; rfl
    rw [hE]
    split_ifs with c1 c2 c3
    · rw [hsd, hE, if_pos c1]
    · rw [h02c, strip_digits_split_all hd 2, hE, if_neg c1, if_pos c2, h02c]
    · rw [h02c, strip_digits_split3 hd 2 3 5 4 (by norm_num),
        List.take_of_length_le (show d.length ≤ 2 + 3 + 4 by omega), hE,
        if_neg c1, if_neg c2, if_pos c3, h02c]
    · by_cases hK : d.length ≤ 10
      · rw [h02c, strip_digits_split3 hd 2 4 6 4 (by norm_num),
          List.take_of_length_le (show d.length ≤ 2 + 4 + 4 by omega), hE,
          if_neg c1, if_neg c2, if_neg c3, h02c]
      · rw [h02c, strip_digits_split3 hd 2 4 6 4 (by norm_num)]
        have h2t : (d.take (2 + 4 + 4)).take 2 = ['0', '2'] := by
          rw [take_take_eq (by norm_num)]; exact h2
        rw [fmtDigits_seoul h2t]
        have hlen2 : (d.take (2 + 4 + 4)).length = 10 := by
          simp only [List.length_take]; omega
        rw [hlen2, if_neg (by norm_num), if_neg (by norm_num),
          if_neg (by norm_num), take_trunc d 2 4 (2 + 4 + 4) (by norm_num),
          take_trunc d 6 4 (2 + 4 + 4) (by norm_num), h02c]
  by_cases h3 : d.take 3 ∈ SERVICE_3
  · have hE := fmtDigits_service h3
    have hn3 : 3 ≤ d.length := three_le_length_of_take_mem h3 (by decide)
    rw [hE]
    split_ifs with c1 c2
    · rw [hsd, hE, if_pos c1]
    · rw [strip_digits_split_all hd 3, hE, if_neg c1, if_pos c2]
    · by_cases hK : d.length ≤ 11
      · rw [strip_digits_split3 hd 3 4 7 4 (by norm_num),
          List.take_of_length_le (show d.length ≤ 3 + 4 + 4 by omega), hE,
          if_neg c1, if_neg c2]
      · rw [strip_digits_split3 hd 3 4 7 4 (by norm_num)]
        have h3t : (d.take (3 + 4 + 4)).take 3 = d.take 3 :=
          take_take_eq (by norm_num)
        have h3m : (d.take (3 + 4 + 4)).take 3 ∈ SERVICE_3 := by
          rw [h3t]; exact h3
        rw [fmtDigits_service h3m]
        have hlen2 : (d.take (3 + 4 + 4)).length = 11 := by
          simp only [List.length_take]; omega
        rw [hlen2, if_neg (by norm_num), if_neg (by norm_num), h3t,
          take_trunc d 3 4 (3 + 4 + 4) (by norm_num),
          take_trunc d 7 4 (3 + 4 + 4) (by norm_num)]
  by_cases h4 : d.take 3 ∈ MOBILE_PREFIXES
  · have hE := fmtDigits_mobile h4
    have hn3 : 3 ≤ d.length := three_le_length_of_take_mem h4 (by decide)
    rw [hE]
    split_ifs with c1 c2 c3
    · rw [hsd, hE, if_pos c1]
    · rw [strip_digits_split_all hd 3, hE, if_neg c1, if_pos c2]
    · rw [strip_digits_split3 hd 3 3 6 4 (by norm_num),
        List.take_of_length_le (show d.length ≤ 3 + 3 + 4 by omega), hE,
        if_neg c1, if_neg c2, if_pos c3]
    · by_cases hK : d.length ≤ 11
      · rw [strip_digits_split3 hd 3 4 7 4 (by norm_num),
          List.take_of_length_le (show d.length ≤ 3 + 4 + 4 by omega), hE,
          if_neg c1, if_neg c2, if_neg c3]
      · rw [strip_digits_split3 hd 3 4 7 4 (by norm_num)]
        have h3t : (d.take (3 + 4 + 4)).take 3 = d.take 3 :=
          take_take_eq (by norm_num)
        have h4m : (d.take (3 + 4 + 4)).take 3 ∈ MOBILE_PREFIXES := by
          rw [h3t]; exact h4
        rw [fmtDigits_mobile h4m]
        have hlen2 : (d.take (3 + 4 + 4)).length = 11 := by
          simp only [List.length_take]; omega
        rw [hlen2, if_neg (by norm_num), if_neg (by norm_num),
          if_neg (by norm_num), h3t,
          take_trunc d 3 4 (3 + 4 + 4) (by norm_num),
          take_trunc d 7 4 (3 + 4 + 4) (by norm_num)]
  by_cases h5 : d.take 3 ∈ AREA3
  · have hE := fmtDigits_area h5
    have hn3 : 3 ≤ d.length := three_le_length_of_take_mem h5 (by decide)
    rw [hE]
    split_ifs with c1 c2
    · rw [hsd, hE, if_pos c1]
    · rw [strip_digits_split_all hd 3, hE, if_neg c1, if_pos c2]
    · by_cases hK : d.length ≤ 10
      · rw [strip_digits_split3 hd 3 3 6 4 (by norm_num),
          List.take_of_length_le (show d.length ≤ 3 + 3 + 4 by omega), hE,
          if_neg c1, if_neg c2]
      · rw [strip_digits_split3 hd 3 3 6 4 (by norm_num)]
        have h3t : (d.take (3 + 3 + 4)).take 3 = d.take 3 :=
          take_take_eq (by norm_num)
        have h5m : (d.take (3 + 3 + 4)).take 3 ∈ AREA3 := by
          rw [h3t]; exact h5
        rw [fmtDigits_area h5m]
        have hlen2 : (d.take (3 + 3 + 4)).length = 10 := by
          simp only [List.length_take]; omega
        rw [hlen2, if_neg (by norm_num), if_neg (by norm_num), h3t,
          take_trunc d 3 3 (3 + 3 + 4) (by norm_num),
          take_trunc d 6 4 (3 + 3 + 4) (by norm_num)]
  have hE := fmtDigits_fallback hd0 h1 h2 h3 h4 h5
  rw [hE]
  split_ifs with c1 c2 c3 c4
  · rw [strip_digits_split2 hd 4 4,
      List.take_of_length_le (show d.length ≤ 4 + 4 by omega), hE, if_pos c1]
  · rw [strip_digits_split3 hd 3 3 6 4 (by norm_num),
      List.take_of_length_le (show d.length ≤ 3 + 3 + 4 by omega), hE,
      if_neg c1, if_pos c2]
  · by_cases hK : d.length ≤ 11
    · rw [strip_digits_split3 hd 3 4 7 4 (by norm_num),
        List.take_of_length_le (show d.length ≤ 3 + 4 + 4 by omega), hE,
        if_neg c1, if_neg c2, if_pos c3]
    · rw [strip_digits_split3 hd 3 4 7 4 (by norm_num)]
      have hlen2 : (d.take (3 + 4 + 4)).length = 11 := by
        simp only [List.length_take]; omega
      have h3t : (d.take (3 + 4 + 4)).take 3 = d.take 3 :=
        take_take_eq (by norm_num)
      have h2t : (d.take (3 + 4 + 4)).take 2 = d.take 2 :=
        take_take_eq (by norm_num)
      have hne2 : d.take (3 + 4 + 4) ≠ [] := by
        apply List.ne_nil_of_length_pos
        rw [hlen2]
        norm_num
      have hshort2 : ¬ ((d.take (3 + 4 + 4)).length = 8 ∧
          (d.take (3 + 4 + 4)).take 2 ∈ [['1', '5'], ['1', '6'], ['1', '8']]) := by
        rw [hlen2]
        intro hh
        exact absurd hh.1 (by norm_num)
      have h02b : ¬ (d.take (3 + 4 + 4)).take 2 = ['0', '2'] := by
        rw [h2t]; exact h2
      have hsvc2 : (d.take (3 + 4 + 4)).take 3 ∉ SERVICE_3 := by
        rw [h3t]; exact h3
      have hmob2 : (d.take (3 + 4 + 4)).take 3 ∉ MOBILE_PREFIXES := by
        rw [h3t]; exact h4
      have harea2 : (d.take (3 + 4 + 4)).take 3 ∉ AREA3 := by
        rw [h3t]; exact h5
      rw [fmtDigits_fallback hne2 hshort2 h02b hsvc2 hmob2 harea2, hlen2,
        if_neg (by norm_num), if_neg (by norm_num), if_pos (by norm_num), h3t,
        take_trunc d 3 4 (3 + 4 + 4) (by norm_num),
        take_trunc d 7 4 (3 + 4 + 4) (by norm_num)]
  · rw [hsd, hE, if_neg c1, if_neg c2, if_neg c3, if_pos c4]
  · rw [strip_digits_split_all hd 3, hE, if_neg c1, if_neg c2, if_neg c3,
      if_neg c4]

/-- C5: `format_korean_phone` is idempotent: hyphens are stripped before
reprocessing, and the digit content of an output reformats to the same
output. -/
theorem normalize_idem (raw : List Char) :
    format_korean_phone (format_korean_phone raw) = format_korean_phone raw :=
  fmt_idem (strip_digits raw) (fun _ hc => mem_strip_digits_isDigit hc)

example : format_korean_phone "01012345678".toList = "010-1234-5678".toList := by decide
example : format_korean_phone "0111234567".toList = "011-123-4567".toList := by decide
example : format_korean_phone "07012345678".toList = "070-1234-5678".toList := by decide
example : format_korean_phone "0212345678".toList = "02-1234-5678".toList := by decide
example : format_korean_phone "021234567".toList = "02-123-4567".toList := by decide
example : format_korean_phone "0312345678".toList = "031-234-5678".toList := by decide
example : format_korean_phone "15881234".toList = "1588-1234".toList := by decide
example : format_korean_phone "010 1234 5678".toList = "010-1234-5678".toList := by decide

end SalesApp
